import Mathlib

/-!
Verification of `k8s_crd_resolver` (file `src/k8s_crd_resolver/__init__.py`)
against its natural-language specification.

The program manipulates YAML/JSON-like documents: arbitrarily nested
mappings with string keys, sequences, and scalars.  We embed such
documents as the inductive type `Node` below, and translate each Python
function of the source into a pure Lean function on `Node`:

* `remove_k8s_extentions`   (source lines 51-57) — in-place deletion of
  non-allow-listed `x-kubernetes-` keys becomes a tree-rebuilding function;
* `remove_k8s_descriptions` (source lines 62-71) — paired traversal that
  deletes `description` keys absent from the source tree;
* `parse_and_resolve`       (source lines 74-98) — wraps the schema in the
  OpenAPI skeleton, resolves `$ref` pointers (the resolution itself is done
  by the external `prance.ResolvingParser` library, which is not part of
  this repository; it is modelled from the specification, see
  `resolveRefs`), and then prunes extensions and, optionally, descriptions;
* `resolve`                 (source lines 100-136) — the driver: checks
  `kind` and `apiVersion`, dispatches to the per-version schema locations,
  and would apply a JSON patch before writing the output.  Python
  exceptions become the `PyError` sum type and the `Except` monad; a
  returned `.ok doc` models the document written to the destination, while
  `.error e` models a raised exception (nothing written).

Python dictionaries are ordered with unique keys; we model them as
association lists, and where uniqueness matters a well-formedness
predicate `wfNode` (no duplicate keys at any mapping node) captures
exactly the documents representable as Python dictionaries.
-/

inductive Node where
  | null : Node
  | bool (b : Bool) : Node
  | int (n : Int) : Node
  | str (s : String) : Node
  | arr (items : List Node) : Node
  | obj (entries : List (String × Node)) : Node
deriving Repr

mutual
def beqNode : Node → Node → Bool
  | .null, .null => true
  | .bool a, .bool b => a == b
  | .int a, .int b => a == b
  | .str a, .str b => a == b
  | .arr a, .arr b => beqNodeList a b
  | .obj a, .obj b => beqNodeEntries a b
  | _, _ => false

def beqNodeList : List Node → List Node → Bool
  | [], [] => true
  | a :: as, b :: bs => beqNode a b && beqNodeList as bs
  | _, _ => false

def beqNodeEntries : List (String × Node) → List (String × Node) → Bool
  | [], [] => true
  | (k, v) :: as, (l, w) :: bs => k == l && beqNode v w && beqNodeEntries as bs
  | _, _ => false
end

mutual
theorem beqNode_refl : ∀ n, beqNode n n = true
  | .null => rfl
  | .bool b => by simp [beqNode]
  | .int n => by simp [beqNode]
  | .str s => by simp [beqNode]
  | .arr items => by simp [beqNode, beqNodeList_refl items]
  | .obj entries => by simp [beqNode, beqNodeEntries_refl entries]

theorem beqNodeList_refl : ∀ l, beqNodeList l l = true
  | [] => rfl
  | a :: as => by simp [beqNodeList, beqNode_refl a, beqNodeList_refl as]

theorem beqNodeEntries_refl : ∀ l, beqNodeEntries l l = true
  | [] => rfl
  | (k, v) :: as => by simp [beqNodeEntries, beqNode_refl v, beqNodeEntries_refl as]
end

mutual
theorem beqNode_eq : ∀ a b, beqNode a b = true → a = b
  | .null, .null, _ => rfl
  | .bool a, .bool b, h => by simp [beqNode] at h; simp [h]
  | .int a, .int b, h => by simp [beqNode] at h; simp [h]
  | .str a, .str b, h => by simp [beqNode] at h; simp [h]
  | .arr a, .arr b, h => by simp [beqNode] at h; simp [beqNodeList_eq a b h]
  | .obj a, .obj b, h => by simp [beqNode] at h; simp [beqNodeEntries_eq a b h]

theorem beqNodeList_eq : ∀ a b, beqNodeList a b = true → a = b
  | [], [], _ => rfl
  | a :: as, b :: bs, h => by
      simp [beqNodeList] at h
      simp [beqNode_eq a b h.1, beqNodeList_eq as bs h.2]

theorem beqNodeEntries_eq : ∀ a b, beqNodeEntries a b = true → a = b
  | [], [], _ => rfl
  | (k, v) :: as, (l, w) :: bs, h => by
      simp [beqNodeEntries] at h
      simp [h.1.1, beqNode_eq v w h.1.2, beqNodeEntries_eq as bs h.2]
end

instance : DecidableEq Node := fun a b =>
  if h : beqNode a b = true then .isTrue (beqNode_eq a b h)
  else .isFalse (fun e => h (e ▸ beqNode_refl a))

/-- Source lines 40-48: the fixed allow-list of Kubernetes schema
extensions that survive pruning. -/
def K8S_SCHEMA_EXTENSIONS : List String :=
  [ "x-kubernetes-embedded-resource"
  , "x-kubernetes-int-or-string"
  , "x-kubernetes-preserve-unknown-fields"
  , "x-kubernetes-list-map-keys"
  , "x-kubernetes-list-type"
  , "x-kubernetes-map-type"
  , "x-kubernetes-validator" ]

/-- Python `s.startswith(p)`: the character sequence of `p` is a prefix of
that of `s` (stated over `String.data` so that it evaluates by kernel
reduction). -/
def strStartsWith (s p : String) : Bool :=
  p.data.isPrefixOf s.data

/-- Source line 54: the deletion condition of `remove_k8s_extentions` —
the key starts with the reserved vendor prefix and is not allow-listed. -/
def prunableKey (k : String) : Bool :=
  strStartsWith k "x-kubernetes-" && !(K8S_SCHEMA_EXTENSIONS.contains k)

mutual
/-- Source lines 51-57.  The Python function mutates `schema` in place:
for a dict it iterates over a snapshot of the keys, deletes prunable keys
and recurses into the values of all remaining keys; for anything that is
not a dict (scalars and also lists: `isinstance(schema, dict)` is false
for a list) it does nothing.  The embedding returns the mutated tree. -/
def remove_k8s_extentions : Node → Node
  | .obj entries => .obj (removeExtEntries entries)
  | n => n

def removeExtEntries : List (String × Node) → List (String × Node)
  | [] => []
  | (k, v) :: rest =>
    if prunableKey k then removeExtEntries rest
    else (k, remove_k8s_extentions v) :: removeExtEntries rest
end

/-- Source line 65: the test `isinstance(source_schema, dict) and
k in source_schema`, together with the access `source_schema[k]`:
returns the value of `k` when the source is a dict containing `k`. -/
def srcLookup (src : Option Node) (k : String) : Option Node :=
  match src with
  | some (.obj es) => es.lookup k
  | _ => none

mutual
/-- Source lines 62-71.  Paired traversal of `schema` against
`source_schema` (which the Python code may pass as `None`, hence
`Option Node`).  A key present in the source recurses into the pair;
a key absent from the source is deleted when it is `description` and
otherwise recurses with a `None` source.  Lists are never entered:
`isinstance(schema, dict)` is false for them. -/
def remove_k8s_descriptions : Node → Option Node → Node
  | .obj entries, src => .obj (removeDescEntries entries src)
  | n, _ => n

def removeDescEntries : List (String × Node) → Option Node → List (String × Node)
  | [], _ => []
  | (k, v) :: rest, src =>
    match srcLookup src k with
    | some sv => (k, remove_k8s_descriptions v (some sv)) :: removeDescEntries rest src
    | none =>
      if k == "description" then removeDescEntries rest src
      else (k, remove_k8s_descriptions v none) :: removeDescEntries rest src
end

/-- Observer: the value reached from `n` by following a path of mapping
keys (used only to state properties about concrete documents). -/
def getAt : Node → List String → Option Node
  | n, [] => some n
  | .obj es, k :: ks =>
    match es.lookup k with
    | some v => getAt v ks
    | none => none
  | _, _ :: _ => none

mutual
/-- Observer: no mapping reachable through any mix of mapping values and
sequence elements contains a `$ref` key. -/
def noRef : Node → Bool
  | .obj es => noRefEntries es
  | .arr xs => noRefList xs
  | _ => true

def noRefEntries : List (String × Node) → Bool
  | [] => true
  | (k, v) :: rest => !(k == "$ref") && noRef v && noRefEntries rest

def noRefList : List Node → Bool
  | [] => true
  | x :: xs => noRef x && noRefList xs
end

mutual
/-- Observer: no mapping reachable through mapping values alone (the
positions `remove_k8s_extentions` actually visits) contains a prunable
vendor key. -/
def noBadExtM : Node → Bool
  | .obj es => noBadExtMEntries es
  | _ => true

def noBadExtMEntries : List (String × Node) → Bool
  | [] => true
  | (k, v) :: rest => !(prunableKey k) && noBadExtM v && noBadExtMEntries rest
end

mutual
/-- Observer: no mapping reachable through any mix of mapping values AND
sequence elements contains a prunable vendor key (the property claimed
by the specification for `pruneExtensions`). -/
def noBadExtDeep : Node → Bool
  | .obj es => noBadExtDeepEntries es
  | .arr xs => noBadExtDeepList xs
  | _ => true

def noBadExtDeepEntries : List (String × Node) → Bool
  | [] => true
  | (k, v) :: rest => !(prunableKey k) && noBadExtDeep v && noBadExtDeepEntries rest

def noBadExtDeepList : List Node → Bool
  | [] => true
  | x :: xs => noBadExtDeep x && noBadExtDeepList xs
end

def nodupKeys : List String → Bool
  | [] => true
  | k :: ks => !(ks.contains k) && nodupKeys ks

mutual
/-- Well-formedness: every mapping node, at any depth, has pairwise
distinct keys — exactly the trees representable as Python dicts. -/
def wfNode : Node → Bool
  | .obj es => nodupKeys (es.map Prod.fst) && wfEntries es
  | .arr xs => wfList xs
  | _ => true

def wfEntries : List (String × Node) → Bool
  | [] => true
  | (_, v) :: rest => wfNode v && wfEntries rest

def wfList : List Node → Bool
  | [] => true
  | x :: xs => wfNode x && wfList xs
end

mutual
/-- Modelled from the spec: the Reference Resolver (the external library
`prance.ResolvingParser` invoked at source line 87 is not part of this
repository).  Specification §4.1: every `$ref` node (a mapping carrying a
`$ref` key whose value is a string pointer) is replaced by its target's
content, targets being located relative to the wrapper document
(`#/components/schemas/...`) or fetched externally; a missing or
malformed target, or resolution that does not terminate, fails with a
`ResolutionError`.  `env` maps pointer strings to target content
(internal components and external fetches alike); `fuel` bounds the
recursion (in particular the number of pointer indirections), so circular
references fail deterministically (return `none`) instead of diverging. -/
def resolveRefs (env : List (String × Node)) : Nat → Node → Option Node
  | 0, _ => none
  | Nat.succ fuel, .obj es =>
    match es.lookup "$ref" with
    | some (.str ptr) =>
      match env.lookup ptr with
      | some target => resolveRefs env fuel target
      | none => none
    | some _ => none
    | none => Option.map Node.obj (resolveRefsEntries env fuel es)
  | Nat.succ fuel, .arr xs => Option.map Node.arr (resolveRefsList env fuel xs)
  | Nat.succ _, n => some n

def resolveRefsEntries (env : List (String × Node)) :
    Nat → List (String × Node) → Option (List (String × Node))
  | _, [] => some []
  | 0, _ :: _ => none
  | Nat.succ fuel, (k, v) :: rest =>
    match resolveRefs env fuel v, resolveRefsEntries env fuel rest with
    | some w, some ws => some ((k, w) :: ws)
    | _, _ => none

def resolveRefsList (env : List (String × Node)) : Nat → List Node → Option (List Node)
  | _, [] => some []
  | 0, _ :: _ => none
  | Nat.succ fuel, x :: xs =>
    match resolveRefs env fuel x, resolveRefsList env fuel xs with
    | some y, some ys => some (y :: ys)
    | _, _ => none
end

/-- Source lines 74-98.  The schema is inserted into the OpenAPI skeleton
as component `crd_schema` (so the pointer
`#/components/schemas/crd_schema` resolves to it), references are
resolved (`resolveRefs`, spec-modelled), extensions are pruned, and
descriptions are pruned against the original schema when requested.
`env` carries the remaining resolution targets (external documents);
`none` models the parser raising a resolution error. -/
def parse_and_resolve (env : List (String × Node)) (fuel : Nat) (schema : Node)
    (remove_desciptions : Bool) : Option Node :=
  match resolveRefs (("#/components/schemas/crd_schema", schema) :: env) fuel schema with
  | none => none
  | some resolved_schema =>
    let resolved_schema := remove_k8s_extentions resolved_schema
    if remove_desciptions then some (remove_k8s_descriptions resolved_schema (some schema))
    else some resolved_schema

/-- Python exceptions raised by the driver (and, for the resolver, by the
external parser). -/
inductive PyError where
  | typeError (msg : String) : PyError
  | keyError (key : String) : PyError
  | resolutionError : PyError
  | patchError : PyError
deriving DecidableEq, Repr

/-- Python subscription `d[k]`: a `KeyError` when the key is absent from
the dict, a `TypeError` when the value is not subscriptable by a string. -/
def dictGet (n : Node) (k : String) : Except PyError Node :=
  match n with
  | .obj es =>
    match es.lookup k with
    | some v => .ok v
    | none => .error (.keyError k)
  | _ => .error (.typeError "value is not subscriptable by string keys")

def setEntry : List (String × Node) → String → Node → List (String × Node)
  | [], k, v => [(k, v)]
  | (k0, v0) :: rest, k, v =>
    if k0 == k then (k0, v) :: rest else (k0, v0) :: setEntry rest k v

/-- Python assignment `d[k] = v` on a dict: an existing key keeps its
position, a new key is appended (dicts preserve insertion order). -/
def dictSet (n : Node) (k : String) (v : Node) : Node :=
  match n with
  | .obj es => .obj (setEntry es k v)
  | n => n

mutual
/-- Python `str()` of a loaded YAML value, used only to format the
message of the `TypeError` raised at source line 127 (where the formatted
value is a scalar whenever that line is reached on a real document). -/
def pyStr : Node → String
  | .null => "None"
  | .bool true => "True"
  | .bool false => "False"
  | .int n => toString n
  | .str s => s
  | .arr xs => "[" ++ pyStrList xs ++ "]"
  | .obj es => "\x7b" ++ pyStrEntries es ++ "\x7d"

def pyStrList : List Node → String
  | [] => ""
  | [x] => pyStr x
  | x :: xs => pyStr x ++ ", " ++ pyStrList xs

def pyStrEntries : List (String × Node) → String
  | [] => ""
  | [(k, v)] => k ++ ": " ++ pyStr v
  | (k, v) :: es => k ++ ": " ++ pyStr v ++ ", " ++ pyStrEntries es
end

/-- One RFC 6902 operation, as parsed from a JSON Patch document. -/
structure PatchOp where
  op : String
  path : String
  value : Option Node
deriving Repr

def JsonPatch := List PatchOp

/-- Modelled from the spec: `add` at a JSON-Pointer path of mapping keys
(the external `jsonpatch` library invoked at source line 130 is not part
of this repository; only the `add` operation of RFC 6902 is needed by the
claims).  Fails when an intermediate path segment is missing. -/
def addAt : Node → List String → Node → Option Node
  | .obj es, [k], v => some (.obj (setEntry es k v))
  | .obj es, k :: ks, v =>
    match es.lookup k with
    | some child =>
      match addAt child ks v with
      | some child2 => some (.obj (setEntry es k child2))
      | none => none
    | none => none
  | _, _, _ => none

/-- The segments of a JSON-Pointer path such as `/metadata/labels/foo`
(stated over `String.data` so that it evaluates by kernel reduction). -/
def pathParts (p : String) : List String :=
  ((p.data.splitOn '/').map String.mk).drop 1

/-- Modelled from the spec: RFC 6902 application of one operation. -/
def applyPatchOp (doc : Node) (op : PatchOp) : Except PyError Node :=
  if op.op == "add" then
    match op.value with
    | some v =>
      match addAt doc (pathParts op.path) v with
      | some doc2 => .ok doc2
      | none => .error .patchError
    | none => .error .patchError
  else .error .patchError

/-- Modelled from the spec: `JsonPatch.apply(source, in_place=True)`. -/
def jsonpatchApply (doc : Node) : JsonPatch → Except PyError Node
  | [] => .ok doc
  | op :: ops =>
    match applyPatchOp doc op with
    | .ok doc2 => jsonpatchApply doc2 ops
    | .error e => .error e

/-- Source lines 122-125: the loop `for version in source['spec']['versions']`,
resolving each version's schema and storing it back in place. -/
def processVersions (env : List (String × Node)) (fuel : Nat) (rd : Bool) :
    List Node → Except PyError (List Node)
  | [] => .ok []
  | version :: rest => do
    let schema ← dictGet version "schema"
    let s ← dictGet schema "openAPIV3Schema"
    match parse_and_resolve env fuel s rd with
    | none => .error .resolutionError
    | some resolved =>
      let version := dictSet version "schema" (dictSet schema "openAPIV3Schema" resolved)
      let rest2 ← processVersions env fuel rd rest
      .ok (version :: rest2)

/-- Source lines 100-136, after the source document has been loaded from
file or stdin (I/O is outside the embedding).  `jsonpatch` is the loaded
patch the caller supplies; NOTE that source line 109 assigns
`jsonpatch = None` before the `if jsonpatch:` test at line 110, so the
parameter is dead and no patch is ever loaded or applied — the embedding
reproduces this faithfully.  The returned `.ok doc` is the document
written to the destination (lines 132-136); `.error e` models a raised
exception, in which case nothing is written. -/
def resolve (source : Node) (jsonpatch : Option JsonPatch)
    (remove_descriptions : Bool) (env : List (String × Node)) (fuel : Nat) :
    Except PyError Node := do
  let jsonpatch : Option JsonPatch := none
  let kind ← dictGet source "kind"
  if kind ≠ Node.str "CustomResourceDefinition" then
    .error (.typeError "Input file is not a CustomResourceDefinition.")
  else do
    let apiVersion ← dictGet source "apiVersion"
    if apiVersion = Node.str "apiextensions.k8s.io/v1beta1" then do
      let spec ← dictGet source "spec"
      let validation ← dictGet spec "validation"
      let schema ← dictGet validation "openAPIV3Schema"
      match parse_and_resolve env fuel schema remove_descriptions with
      | none => .error .resolutionError
      | some resolved_schema =>
        let source := dictSet source "spec"
          (dictSet spec "validation" (dictSet validation "openAPIV3Schema" resolved_schema))
        match jsonpatch with
        | some p => jsonpatchApply source p
        | none => .ok source
    else if apiVersion = Node.str "apiextensions.k8s.io/v1" then do
      let spec ← dictGet source "spec"
      let versions ← dictGet spec "versions"
      match versions with
      | .arr vs => do
        let vs2 ← processVersions env fuel remove_descriptions vs
        let source := dictSet source "spec" (dictSet spec "versions" (.arr vs2))
        match jsonpatch with
        | some p => jsonpatchApply source p
        | none => .ok source
      | _ => .error (.typeError "object is not iterable")
    else do
      let v ← dictGet source "version"
      .error (.typeError ("Unsupported CRD version " ++ pyStr v))

/-! ### Lemmas about the extension pruner -/

mutual
theorem noBadExtM_removeExt : ∀ n, noBadExtM (remove_k8s_extentions n) = true
  | .obj es => by
      simp [remove_k8s_extentions, noBadExtM, noBadExtMEntries_removeExt es]
  | .null => rfl
  | .bool b => rfl
  | .int n => rfl
  | .str s => rfl
  | .arr xs => rfl

theorem noBadExtMEntries_removeExt : ∀ es, noBadExtMEntries (removeExtEntries es) = true
  | [] => rfl
  | (k, v) :: rest => by
      cases hp : prunableKey k with
      | true => simp [removeExtEntries, hp, noBadExtMEntries_removeExt rest]
      | false =>
          simp [removeExtEntries, hp, noBadExtMEntries, noBadExtM_removeExt v,
                noBadExtMEntries_removeExt rest]
end

mutual
theorem removeExt_of_noBad : ∀ n, noBadExtM n = true → remove_k8s_extentions n = n
  | .obj es, h => by
      simp only [noBadExtM] at h
      simp [remove_k8s_extentions, removeExtEntries_of_noBad es h]
  | .null, _ => rfl
  | .bool b, _ => rfl
  | .int n, _ => rfl
  | .str s, _ => rfl
  | .arr xs, _ => rfl

theorem removeExtEntries_of_noBad : ∀ es, noBadExtMEntries es = true → removeExtEntries es = es
  | [], _ => rfl
  | (k, v) :: rest, h => by
      simp only [noBadExtMEntries, Bool.and_eq_true, Bool.not_eq_true'] at h
      simp [removeExtEntries, h.1.1, removeExt_of_noBad v h.1.2,
            removeExtEntries_of_noBad rest h.2]
end

theorem prunableKey_allowlisted (k : String) (h : k ∈ K8S_SCHEMA_EXTENSIONS) :
    prunableKey k = false := by
  simp only [prunableKey, Bool.and_eq_false_iff, Bool.not_eq_true]
  right
  simpa using List.elem_iff.mpr h

theorem mem_removeExtEntries (k : String) (v : Node) :
    ∀ es, prunableKey k = false → (k, v) ∈ es →
      (k, remove_k8s_extentions v) ∈ removeExtEntries es := by
  intro es hp hm
  induction es with
  | nil => simp at hm
  | cons head rest ih =>
      obtain ⟨k0, v0⟩ := head
      rcases List.mem_cons.mp hm with h1 | h1
      · obtain ⟨hk, hv⟩ := Prod.ext_iff.mp h1
        simp only at hk hv
        subst hk
        subst hv
        simp [removeExtEntries, hp]
      · cases hp0 : prunableKey k0 with
        | true => simpa [removeExtEntries, hp0] using ih h1
        | false => simp [removeExtEntries, hp0]; right; exact ih h1

theorem removeExtEntries_provenance (k : String) (v : Node) :
    ∀ es, (k, v) ∈ removeExtEntries es →
      ∃ v0, (k, v0) ∈ es ∧ v = remove_k8s_extentions v0 := by
  intro es hm
  induction es with
  | nil => simp [removeExtEntries] at hm
  | cons head rest ih =>
      obtain ⟨k0, v0⟩ := head
      cases hp0 : prunableKey k0 with
      | true =>
          simp only [removeExtEntries, hp0, if_true] at hm
          obtain ⟨w, hw1, hw2⟩ := ih hm
          exact ⟨w, List.mem_cons_of_mem _ hw1, hw2⟩
      | false =>
          simp only [removeExtEntries, hp0, Bool.false_eq_true, if_false,
                     List.mem_cons] at hm
          rcases hm with h1 | h1
          · obtain ⟨hk, hv⟩ := Prod.ext_iff.mp h1
            simp only at hk hv
            exact ⟨v0, by simp [hk], hv⟩
          · obtain ⟨w, hw1, hw2⟩ := ih h1
            exact ⟨w, List.mem_cons_of_mem _ hw1, hw2⟩

/-- Observer: `n` is a mapping node. -/
def isObj : Node → Bool
  | .obj _ => true
  | _ => false

/-! ### Lemmas about association-list lookup under distinct keys -/

theorem lookup_of_nodup (k : String) (v : Node) :
    ∀ es, nodupKeys (es.map Prod.fst) = true → (k, v) ∈ es →
      List.lookup k es = some v := by
  intro es
  induction es with
  | nil => intro _ hm; simp at hm
  | cons head rest ih =>
      obtain ⟨k0, v0⟩ := head
      intro hn hm
      simp only [List.map_cons, nodupKeys, Bool.and_eq_true, Bool.not_eq_true'] at hn
      rcases List.mem_cons.mp hm with h1 | h1
      · obtain ⟨hk, hv⟩ := Prod.ext_iff.mp h1
        simp only at hk hv
        subst hk
        subst hv
        simp [List.lookup_cons]
      · cases hb : k == k0 with
        | true =>
            exfalso
            have hk : k = k0 := eq_of_beq hb
            subst hk
            have hmem : k ∈ rest.map Prod.fst := List.mem_map.mpr ⟨(k, v), h1, rfl⟩
            have hc : (rest.map Prod.fst).contains k = true := List.elem_iff.mpr hmem
            rw [hn.1] at hc
            exact Bool.false_ne_true hc
        | false =>
            simp only [List.lookup_cons, hb]
            exact ih hn.2 h1

theorem not_mem_keys_of_lookup_none (k : String) :
    ∀ es : List (String × Node), List.lookup k es = none → k ∉ es.map Prod.fst := by
  intro es
  induction es with
  | nil => intro _ h; simp at h
  | cons head rest ih =>
      obtain ⟨k0, v0⟩ := head
      intro hl
      cases hb : k == k0 with
      | true => simp [List.lookup_cons, hb] at hl
      | false =>
          simp only [List.lookup_cons, hb] at hl
          simp only [List.map_cons, List.mem_cons]
          rintro (h1 | h1)
          · exact absurd (beq_iff_eq.mpr h1) (by simp [hb])
          · exact ih hl h1

/-! ### Lemmas about the description pruner -/

mutual
theorem desc_self : ∀ n, wfNode n = true → remove_k8s_descriptions n (some n) = n
  | .obj es, h => by
      simp only [wfNode, Bool.and_eq_true] at h
      simp only [remove_k8s_descriptions]
      exact congrArg Node.obj
        (desc_self_entries es es
          (fun p hp => lookup_of_nodup p.1 p.2 es h.1 hp) h.2)
  | .null, _ => rfl
  | .bool b, _ => rfl
  | .int n, _ => rfl
  | .str s, _ => rfl
  | .arr xs, _ => rfl

theorem desc_self_entries :
    ∀ es es0, (∀ p, p ∈ es → List.lookup p.1 es0 = some p.2) →
      wfEntries es = true →
      removeDescEntries es (some (.obj es0)) = es
  | [], _, _, _ => rfl
  | (k, v) :: rest, es0, hl, hw => by
      have hv : List.lookup k es0 = some v := hl (k, v) (List.mem_cons_self _ _)
      simp only [wfEntries, Bool.and_eq_true] at hw
      simp [removeDescEntries, srcLookup, hv, desc_self v hw.1,
            desc_self_entries rest es0 (fun p hp => hl p (List.mem_cons_of_mem _ hp)) hw.2]
end

/-! ### Lemmas about the reference resolver -/

theorem noRefEntries_of :
    ∀ es : List (String × Node),
      (∀ p, p ∈ es → noRef p.2 = true ∧ p.1 ≠ "$ref") → noRefEntries es = true := by
  intro es h
  induction es with
  | nil => rfl
  | cons p rest ih =>
      obtain ⟨k, v⟩ := p
      obtain ⟨hv, hk⟩ := h (k, v) (List.mem_cons_self _ _)
      simp only at hv hk
      simp [noRefEntries, hv, hk, ih (fun q hq => h q (List.mem_cons_of_mem _ hq))]


theorem resolveRefs_noRef_all : ∀ fuel : Nat,
    (∀ env n out, resolveRefs env fuel n = some out → noRef out = true)
    ∧ (∀ env es es', resolveRefsEntries env fuel es = some es' →
        (∀ p, p ∈ es' → noRef p.2 = true) ∧ es'.map Prod.fst = es.map Prod.fst)
    ∧ (∀ env xs xs', resolveRefsList env fuel xs = some xs' → noRefList xs' = true) := by
  intro fuel
  induction fuel with
  | zero =>
      refine ⟨?_, ?_, ?_⟩
      · intro env n out h; simp [resolveRefs] at h
      · intro env es es' h
        cases es with
        | nil =>
            simp only [resolveRefsEntries, Option.some.injEq] at h
            subst h
            exact ⟨by simp, rfl⟩
        | cons p rest => simp [resolveRefsEntries] at h
      · intro env xs xs' h
        cases xs with
        | nil =>
            simp only [resolveRefsList, Option.some.injEq] at h
            subst h
            rfl
        | cons x rest => simp [resolveRefsList] at h
  | succ fuel ih =>
      obtain ⟨ihn, ihe, ihl⟩ := ih
      refine ⟨?_, ?_, ?_⟩
      · intro env n out h
        cases n with
        | obj es =>
            simp only [resolveRefs] at h
            split at h
            · split at h
              · exact ihn _ _ _ h
              · exact absurd h (by simp)
            · exact absurd h (by simp)
            · rename_i heq
              cases he : resolveRefsEntries env fuel es with
              | none => rw [he] at h; exact absurd h (by simp)
              | some es' =>
                  rw [he] at h
                  have hout : Node.obj es' = out := by
                    simpa using h
                  subst hout
                  obtain ⟨hvals, hkeys⟩ := ihe env es es' he
                  simp only [noRef]
                  apply noRefEntries_of
                  intro p hp
                  refine ⟨hvals p hp, ?_⟩
                  intro hk
                  have hpm : p.1 ∈ es'.map Prod.fst := List.mem_map.mpr ⟨p, hp, rfl⟩
                  rw [hkeys] at hpm
                  exact not_mem_keys_of_lookup_none "$ref" es heq (hk ▸ hpm)
        | arr xs =>
            simp only [resolveRefs] at h
            cases hl : resolveRefsList env fuel xs with
            | none => rw [hl] at h; exact absurd h (by simp)
            | some ys =>
                rw [hl] at h
                have hout : Node.arr ys = out := by simpa using h
                subst hout
                simpa [noRef] using ihl env xs ys hl
        | null =>
            have hout : Node.null = out := by simpa [resolveRefs] using h
            subst hout; rfl
        | bool b =>
            have hout : Node.bool b = out := by simpa [resolveRefs] using h
            subst hout; rfl
        | int n =>
            have hout : Node.int n = out := by simpa [resolveRefs] using h
            subst hout; rfl
        | str s =>
            have hout : Node.str s = out := by simpa [resolveRefs] using h
            subst hout; rfl
      · intro env es es' h
        cases es with
        | nil =>
            simp only [resolveRefsEntries, Option.some.injEq] at h
            subst h
            exact ⟨by simp, rfl⟩
        | cons p rest =>
            obtain ⟨k, v⟩ := p
            simp only [resolveRefsEntries] at h
            cases hv : resolveRefs env fuel v with
            | none => rw [hv] at h; exact absurd h (by simp)
            | some w =>
                cases hr : resolveRefsEntries env fuel rest with
                | none => rw [hv, hr] at h; exact absurd h (by simp)
                | some ws =>
                    rw [hv, hr] at h
                    have hes : (k, w) :: ws = es' := by simpa using h
                    subst hes
                    obtain ⟨h1, h2⟩ := ihe env rest ws hr
                    refine ⟨?_, ?_⟩
                    · intro q hq
                      rcases List.mem_cons.mp hq with h3 | h3
                      · subst h3; exact ihn env v w hv
                      · exact h1 q h3
                    · simp [h2]
      · intro env xs xs' h
        cases xs with
        | nil =>
            simp only [resolveRefsList, Option.some.injEq] at h
            subst h
            rfl
        | cons x rest =>
            simp only [resolveRefsList] at h
            cases hx : resolveRefs env fuel x with
            | none => rw [hx] at h; exact absurd h (by simp)
            | some y =>
                cases hr : resolveRefsList env fuel rest with
                | none => rw [hx, hr] at h; exact absurd h (by simp)
                | some ys =>
                    rw [hx, hr] at h
                    have hxs : y :: ys = xs' := by simpa using h
                    subst hxs
                    simp [noRefList, ihn env x y hx, ihl env rest ys hr]

mutual
theorem noRef_removeExt : ∀ n, noRef n = true → noRef (remove_k8s_extentions n) = true
  | .obj es, h => by
      simp only [noRef] at h
      simp only [remove_k8s_extentions, noRef]
      exact noRefEntries_removeExt es h
  | .null, h => h
  | .bool b, h => h
  | .int n, h => h
  | .str s, h => h
  | .arr xs, h => h

theorem noRefEntries_removeExt :
    ∀ es, noRefEntries es = true → noRefEntries (removeExtEntries es) = true
  | [], h => h
  | (k, v) :: rest, h => by
      simp only [noRefEntries, Bool.and_eq_true, Bool.not_eq_true'] at h
      cases hp : prunableKey k with
      | true => simp [removeExtEntries, hp, noRefEntries_removeExt rest h.2]
      | false =>
          simp [removeExtEntries, hp, noRefEntries, h.1.1,
                noRef_removeExt v h.1.2, noRefEntries_removeExt rest h.2]
end

mutual
theorem noRef_removeDesc :
    ∀ n src, noRef n = true → noRef (remove_k8s_descriptions n src) = true
  | .obj es, src, h => by
      simp only [noRef] at h
      simp only [remove_k8s_descriptions, noRef]
      exact noRefEntries_removeDesc es src h
  | .null, _, h => h
  | .bool b, _, h => h
  | .int n, _, h => h
  | .str s, _, h => h
  | .arr xs, _, h => h

theorem noRefEntries_removeDesc :
    ∀ es src, noRefEntries es = true → noRefEntries (removeDescEntries es src) = true
  | [], _, h => h
  | (k, v) :: rest, src, h => by
      simp only [noRefEntries, Bool.and_eq_true, Bool.not_eq_true'] at h
      cases hs : srcLookup src k with
      | some sv =>
          simp [removeDescEntries, hs, noRefEntries, h.1.1,
                noRef_removeDesc v (some sv) h.1.2, noRefEntries_removeDesc rest src h.2]
      | none =>
          cases hd : k == "description" with
          | true => simp [removeDescEntries, hs, hd, noRefEntries_removeDesc rest src h.2]
          | false =>
              simp [removeDescEntries, hs, hd, noRefEntries, h.1.1,
                    noRef_removeDesc v none h.1.2, noRefEntries_removeDesc rest src h.2]
end

theorem parse_and_resolve_noRef_aux (env : List (String × Node)) (fuel : Nat)
    (schema : Node) (rd : Bool) (out : Node)
    (h : parse_and_resolve env fuel schema rd = some out) : noRef out = true := by
  simp only [parse_and_resolve] at h
  cases hr : resolveRefs (("#/components/schemas/crd_schema", schema) :: env) fuel schema with
  | none => rw [hr] at h; exact absurd h (by simp)
  | some r =>
      rw [hr] at h
      have hnr : noRef (remove_k8s_extentions r) = true :=
        noRef_removeExt r ((resolveRefs_noRef_all fuel).1 _ _ _ hr)
      cases rd with
      | true =>
          have hout : remove_k8s_descriptions (remove_k8s_extentions r) (some schema) = out := by
            simpa using h
          subst hout
          exact noRef_removeDesc _ (some schema) hnr
      | false =>
          have hout : remove_k8s_extentions r = out := by simpa using h
          subst hout
          exact hnr

/-! ### Concrete documents used by the driver claims -/

/-- A minimal well-formed `v1beta1` CRD document (as loaded from YAML). -/
def crd1 : Node :=
  .obj [ ("kind", .str "CustomResourceDefinition")
       , ("apiVersion", .str "apiextensions.k8s.io/v1beta1")
       , ("metadata", .obj [("labels", .obj [])])
       , ("spec", .obj [("validation", .obj [("openAPIV3Schema", .obj [("type", .str "object")])])]) ]

/-- The JSON Patch of the specification's patch scenario:
`[{"op":"add","path":"/metadata/labels/foo","value":"bar"}]`. -/
def patchC1 : JsonPatch := [⟨"add", "/metadata/labels/foo", some (.str "bar")⟩]

/-- What `crd1` would look like had `patchC1` been applied. -/
def crd1_patched : Node :=
  .obj [ ("kind", .str "CustomResourceDefinition")
       , ("apiVersion", .str "apiextensions.k8s.io/v1beta1")
       , ("metadata", .obj [("labels", .obj [("foo", .str "bar")])])
       , ("spec", .obj [("validation", .obj [("openAPIV3Schema", .obj [("type", .str "object")])])]) ]

/-- A CRD with an unsupported `apiVersion` and (as for every real CRD)
no top-level `version` key. -/
def crd2 : Node :=
  .obj [ ("kind", .str "CustomResourceDefinition")
       , ("apiVersion", .str "apiextensions.k8s.io/v2") ]

/-- The same document with a top-level `version` key added, showing the
`TypeError` the source intends to raise at line 127. -/
def crd2v : Node :=
  .obj [ ("kind", .str "CustomResourceDefinition")
       , ("apiVersion", .str "apiextensions.k8s.io/v2")
       , ("version", .str "v2") ]

/-! ### The claims -/

/-- C1.  The claim says the supplied JSON Patch is applied to the final
CRD document, so the output carries the label `foo: bar`.  The code never
applies it: source line 109 assigns `jsonpatch = None` before the
`if jsonpatch:` test at line 110, so the parameter is discarded.  On the
concrete CRD `crd1` with the exact patch of the claim, the driver
succeeds and returns the document unchanged, without the label — while a
real application of the patch (`jsonpatchApply`) would have produced the
label.  This evaluates the embedded code at the failing input. -/
theorem claim_C1_patch_never_applied :
    resolve crd1 (some patchC1) false [] 9 = .ok crd1
    ∧ getAt crd1 ["metadata", "labels", "foo"] = none
    ∧ jsonpatchApply crd1 patchC1 = .ok crd1_patched
    ∧ getAt crd1_patched ["metadata", "labels", "foo"] = some (.str "bar") :=
  ⟨rfl, rfl, rfl, rfl⟩

/-- C2.  The claim says an unsupported `apiVersion` fails with a
`TypeError`-equivalent.  The raise at source line 127 formats its message
with `source['version']` — a key CRD documents do not have (`apiVersion`
is the field) — so evaluating the message raises `KeyError('version')`
before the `TypeError` is constructed.  On a document that does carry a
top-level `version` key the intended `TypeError` is raised, confirming
the message lookup is a slip for `source['apiVersion']`. -/
theorem claim_C2_unsupported_version_raises_keyerror :
    resolve crd2 none false [] 9 = .error (.keyError "version")
    ∧ resolve crd2v none false [] 9 = .error (.typeError "Unsupported CRD version v2") :=
  ⟨rfl, rfl⟩

/-- C3, counterexample.  The claim says sequences recurse into every
child position, so a non-allow-listed vendor key nested inside a
sequence element is removed.  In the code `isinstance(schema, dict)` is
false for a list, so the recursion stops at sequences: on the concrete
tree below, `remove_k8s_extentions` is the identity and the vendor key
nested inside the sequence element survives (reachable through the mix
of mapping values and sequence elements, `noBadExtDeep` is false). -/
theorem claim_C3_counterexample :
    remove_k8s_extentions (.obj [("items", .arr [.obj [("x-kubernetes-foo", .str "v")]])])
      = .obj [("items", .arr [.obj [("x-kubernetes-foo", .str "v")]])]
    ∧ noBadExtDeep (.obj [("items", .arr [.obj [("x-kubernetes-foo", .str "v")]])]) = false :=
  ⟨rfl, rfl⟩

/-- C3, amended.  After `remove_k8s_extentions`, no mapping reachable
through mapping values alone contains a non-allow-listed
`x-kubernetes-` key; sequences are not traversed and are returned
identically, so vendor keys nested inside sequence elements are
retained. -/
theorem claim_C3_amended_prunes_mapping_reachable :
    (∀ t, noBadExtM (remove_k8s_extentions t) = true)
    ∧ (∀ xs, remove_k8s_extentions (.arr xs) = .arr xs) :=
  ⟨noBadExtM_removeExt, fun _ => rfl⟩

/-- C4, counterexample.  The claim says every allow-listed pair `{K: V}`
is retained unchanged for every value `V`.  The code never deletes the
allow-listed key, but it recurses into its value, so a prunable vendor
key inside `V` is removed and the pair is not retained unchanged. -/
theorem claim_C4_counterexample :
    remove_k8s_extentions
        (.obj [("x-kubernetes-embedded-resource", .obj [("x-kubernetes-foo", .str "v")])])
      = .obj [("x-kubernetes-embedded-resource", .obj [])]
    ∧ ("x-kubernetes-embedded-resource", Node.obj [("x-kubernetes-foo", .str "v")])
        ∉ removeExtEntries
            [("x-kubernetes-embedded-resource", .obj [("x-kubernetes-foo", .str "v")])]
    ∧ Node.obj [("x-kubernetes-embedded-resource", .obj [])]
        ≠ .obj [("x-kubernetes-embedded-resource", .obj [("x-kubernetes-foo", .str "v")])] :=
  ⟨rfl, by decide, by decide⟩

/-- C4, amended.  An allow-listed key `k` present in a mapping node is
never deleted: the result retains the entry with its value recursively
pruned, `(k, remove_k8s_extentions v)`; the pair is retained verbatim
exactly when `v` contains no prunable vendor key in any mapping
reachable through mapping values. -/
theorem claim_C4_amended_allowlist_kept (es : List (String × Node)) (k : String) (v : Node)
    (hk : k ∈ K8S_SCHEMA_EXTENSIONS) (hm : (k, v) ∈ es) :
    (k, remove_k8s_extentions v) ∈ removeExtEntries es
    ∧ (noBadExtM v = true → remove_k8s_extentions v = v) :=
  ⟨mem_removeExtEntries k v es (prunableKey_allowlisted k hk) hm,
   fun hnb => removeExt_of_noBad v hnb⟩

/-- C4, witness for the amended theorem at a concrete input. -/
theorem claim_C4_witness :
    "x-kubernetes-int-or-string" ∈ K8S_SCHEMA_EXTENSIONS
    ∧ ("x-kubernetes-int-or-string", Node.bool true)
        ∈ [("x-kubernetes-int-or-string", Node.bool true)]
    ∧ (("x-kubernetes-int-or-string", remove_k8s_extentions (Node.bool true))
        ∈ removeExtEntries [("x-kubernetes-int-or-string", Node.bool true)]
      ∧ (noBadExtM (Node.bool true) = true →
          remove_k8s_extentions (Node.bool true) = Node.bool true)) :=
  ⟨by decide, by decide,
   claim_C4_amended_allowlist_kept _ _ _ (by decide) (by decide)⟩

/-- C5.  Description provenance on the concrete pair of trees of the
claim: the `description` whose path (`a.b.description`) is absent from
the source tree is removed, while the one present in the source at the
same path (`a.description`) is kept. -/
theorem claim_C5_description_provenance :
    remove_k8s_descriptions
        (.obj [("a", .obj [ ("description", .str "kept")
                          , ("b", .obj [("description", .str "imported")])])])
        (some (.obj [("a", .obj [("description", .str "kept")])]))
      = .obj [("a", .obj [("description", .str "kept"), ("b", .obj [])])] :=
  rfl

/-- C6.  For every loaded document whose `kind` value is not the string
`CustomResourceDefinition`, the driver raises
`TypeError('Input file is not a CustomResourceDefinition.')` (source
lines 114-115); the result is an error, so the destination write at
lines 132-136 is never reached and no output is written. -/
theorem claim_C6_wrong_kind_fatal (source : Node) (jp : Option JsonPatch) (rd : Bool)
    (env : List (String × Node)) (fuel : Nat) (v : Node)
    (h1 : dictGet source "kind" = .ok v)
    (h2 : v ≠ .str "CustomResourceDefinition") :
    resolve source jp rd env fuel
      = .error (.typeError "Input file is not a CustomResourceDefinition.") := by
  simp only [resolve, h1, bind, Except.bind]
  simp [h2]

/-- C6, witness: a `kind: ConfigMap` document. -/
theorem claim_C6_witness :
    dictGet (.obj [("kind", .str "ConfigMap")]) "kind" = .ok (.str "ConfigMap")
    ∧ Node.str "ConfigMap" ≠ .str "CustomResourceDefinition"
    ∧ resolve (.obj [("kind", .str "ConfigMap")]) none false [] 9
        = .error (.typeError "Input file is not a CustomResourceDefinition.") :=
  ⟨rfl, by decide,
   claim_C6_wrong_kind_fatal _ none false [] 9 _ rfl (by decide)⟩

/-- C7.  The extension pruner is idempotent: a second pass removes
nothing, because the first pass already removed every prunable key from
every mapping the traversal reaches. -/
theorem claim_C7_idempotent (t : Node) :
    remove_k8s_extentions (remove_k8s_extentions t) = remove_k8s_extentions t :=
  removeExt_of_noBad _ (noBadExtM_removeExt t)

/-- C8.  Resolution exhaustiveness: whenever `parse_and_resolve`
succeeds, the returned document contains no `$ref` key at any depth
(every reference node was replaced by its target's content, and the
two pruning passes never introduce a key). -/
theorem claim_C8_no_ref_after_resolution (env : List (String × Node)) (fuel : Nat)
    (schema : Node) (rd : Bool) (out : Node)
    (h : parse_and_resolve env fuel schema rd = some out) : noRef out = true :=
  parse_and_resolve_noRef_aux env fuel schema rd out h

/-- C8, witness: a schema with one external reference resolves
successfully and the output is `$ref`-free. -/
theorem claim_C8_witness :
    parse_and_resolve [("defs.yaml#/Foo", .obj [("type", .str "string")])] 9
        (.obj [("a", .obj [("$ref", .str "defs.yaml#/Foo")])]) false
      = some (.obj [("a", .obj [("type", .str "string")])])
    ∧ noRef (.obj [("a", .obj [("type", .str "string")])]) = true :=
  ⟨rfl,
   claim_C8_no_ref_after_resolution
     [("defs.yaml#/Foo", .obj [("type", .str "string")])] 9
     (.obj [("a", .obj [("$ref", .str "defs.yaml#/Foo")])]) false
     (.obj [("a", .obj [("type", .str "string")])]) rfl⟩

/-- C9.  Pruning descriptions against the tree itself is the identity:
every key of every mapping is found in the source at the same path, so
the deletion branch is never taken.  Well-formedness (distinct keys at
every mapping, as in every Python dict) is required: with duplicate
keys the association-list model would pair a later duplicate against
the first occurrence's value. -/
theorem claim_C9_self_prune_identity (s : Node) (h : wfNode s = true) :
    remove_k8s_descriptions s (some s) = s :=
  desc_self s h

/-- C9, witness at a concrete tree carrying a `description`. -/
theorem claim_C9_witness :
    wfNode (.obj [("a", .obj [("description", .str "d")])]) = true
    ∧ remove_k8s_descriptions
        (.obj [("a", .obj [("description", .str "d")])])
        (some (.obj [("a", .obj [("description", .str "d")])]))
      = .obj [("a", .obj [("description", .str "d")])] :=
  ⟨by decide, claim_C9_self_prune_identity _ (by decide)⟩

/-- C10.  The extension pruner only deletes mapping entries: every
non-mapping node is returned identical (scalars and sequences, the
latter with all their elements untouched); every entry of a pruned
mapping comes from an entry of the original mapping with the same key
and recursively pruned value (no key is inserted or renamed); and the
key set of a pruned mapping is a subset of the original key set. -/
theorem claim_C10_only_deletes :
    (∀ n, isObj n = false → remove_k8s_extentions n = n)
    ∧ (∀ es k v, (k, v) ∈ removeExtEntries es →
        ∃ v0, (k, v0) ∈ es ∧ v = remove_k8s_extentions v0)
    ∧ (∀ es, (removeExtEntries es).map Prod.fst ⊆ es.map Prod.fst) := by
  refine ⟨?_, ?_, ?_⟩
  · intro n h
    cases n with
    | obj es => simp [isObj] at h
    | null => rfl
    | bool b => rfl
    | int m => rfl
    | str s => rfl
    | arr xs => rfl
  · intro es k v hm
    exact removeExtEntries_provenance k v es hm
  · intro es a ha
    obtain ⟨p, hp, hfst⟩ := List.mem_map.mp ha
    obtain ⟨v0, hv0, _⟩ := removeExtEntries_provenance p.1 p.2 es hp
    exact List.mem_map.mpr ⟨(p.1, v0), hv0, hfst⟩

/-- C10, witness: a sequence node is returned identical. -/
theorem claim_C10_witness :
    isObj (Node.arr [Node.obj [("x-kubernetes-foo", Node.str "v")]]) = false
    ∧ remove_k8s_extentions (Node.arr [Node.obj [("x-kubernetes-foo", Node.str "v")]])
        = Node.arr [Node.obj [("x-kubernetes-foo", Node.str "v")]] :=
  ⟨by decide, claim_C10_only_deletes.1 _ (by decide)⟩
